import Mathlib

/-!
Verification of the COMSUI interpreter (src/lib-py) against its design
specification.  The Python sources are shallowly embedded below: pure
functions become Lean functions, the persistent bash session becomes an
oracle (a function from submitted command text to that command's stdout
or exit status) together with an explicit log of submissions, and loops
whose termination is in question become fuel-indexed functions where a
result of `Option.none` means the loop is still running after the given
number of iterations.  Every definition cites the Python function it
embeds.
-/

namespace COMSUI

/-- Characters that cannot be written literally in this development. -/
def lbraceChar : Char := Char.ofNat 123

/-- The closing curly brace character. -/
def rbraceChar : Char := Char.ofNat 125

/-- The backquote character. -/
def backquoteChar : Char := Char.ofNat 96

/-- The double-quote character. -/
def dquoteChar : Char := Char.ofNat 34

/-- The single-quote character. -/
def squoteChar : Char := Char.ofNat 39

/-- The backslash character. -/
def backslashChar : Char := Char.ofNat 92

/-- Python runtime values the evaluator produces: bool, int, str and None.
`Interpreter.evaluate` returns one of these for every node. -/
inductive Value where
  | bool (b : Bool)
  | int (n : Int)
  | str (s : String)
  | none
deriving DecidableEq, Repr

/-- Truthiness coercion of `Interpreter.evaluate_if_statement`
(interpreter.py lines 432-439): a bool passes through, an int is truthy
iff it equals 0 (exit-status convention), a string is truthy iff it is
non-empty, and anything else goes through Python `bool(...)`
(None is falsy). -/
def ifStatementCoercion : Value → Bool
  | Value.bool b => b
  | Value.int n => n == 0
  | Value.str s => decide (0 < s.length)
  | Value.none => false

/-- Truthiness coercion of `Interpreter.evaluate_compound_statement`
(interpreter.py line 345):
`bool(left) if isinstance(left, (bool, int)) else left == 0`.
A bool passes through, an int goes through Python `bool(...)` (truthy iff
nonzero), and any other value is compared `== 0`, which is False for
every string and for None. -/
def compoundCoercion : Value → Bool
  | Value.bool b => b
  | Value.int n => !(n == 0)
  | Value.str _ => false
  | Value.none => false

/-- `Interpreter.evaluate_compound_statement` (interpreter.py lines
338-362), with the left operand already evaluated and the right operand
kept as a thunk to model short-circuit evaluation. -/
def evaluate_compound_statement (op : String) (leftResult : Value)
    (evalRight : Unit → Value) : Value :=
  let leftSuccess := compoundCoercion leftResult
  if op = "&&" then
    if leftSuccess then evalRight () else leftResult
  else if op = "||" then
    if leftSuccess then leftResult else evalRight ()
  else leftResult

/-- State of the persistent bash session used by
`Interpreter._execute_in_session` (interpreter.py lines 65-98).  Python's
per-process string hash (fixed for the whole interpreter run by
PYTHONHASHSEED) is modelled as an arbitrary function stored in the state;
the texts written to the session's stdin are logged. -/
structure BashSession where
  hashFn : String → Nat
  submitted : List String

/-- The completion marker chosen by `_execute_in_session`
(interpreter.py line 71): `"CMD_COMPLETE_" + str(hash(command) % 10000)`. -/
def commandMarker (hashFn : String → Nat) (command : String) : String :=
  "CMD_COMPLETE_" ++ toString (hashFn command % 10000)

/-- Marker selection and submission of `_execute_in_session`
(interpreter.py lines 65-77): the command plus a marker-echo line is
written to the session, and reading proceeds until a line containing the
marker appears.  The marker used and the updated session state are
returned. -/
def executeInSession (st : BashSession) (command : String) :
    String × BashSession :=
  let marker := commandMarker st.hashFn command
  let fullCommand := command ++ "\necho " ++ String.mk [dquoteChar] ++ marker
    ++ ":$?" ++ String.mk [dquoteChar] ++ "\n"
  (marker, { st with submitted := st.submitted ++ [fullCommand] })

/-- The interpreter's variable store `self.variables`: a Python dict from
name to string value, in insertion order. -/
abbrev Env := List (String × String)

/-- Python dict lookup `d.get(k)` on the variable store: the value of the
first (and, for a dict, only) entry with the given key. -/
def lookupVar : Env → String → Option String
  | [], _ => Option.none
  | p :: rest, k => if p.1 == k then some p.2 else lookupVar rest k

/-- Python dict assignment `d[k] = v`: replace the value in place when the
key is present, otherwise append a new entry. -/
def insertVar (env : Env) (k v : String) : Env :=
  if env.any (fun p => p.1 == k) then
    env.map (fun p => if p.1 == k then (p.1, v) else p)
  else env ++ [(k, v)]

/-- Python `del d[k]`.  In `evaluate_opts_statement`'s restore loop the
deleted key was installed by the opts overlay and no language construct
deletes variables, so the partial Python `del` is modelled total. -/
def eraseVar (env : Env) (k : String) : Env :=
  env.filter (fun p => p.1 != k)

/-- Prefix test on character lists (Python `str.startswith`). -/
def leadsWith : List Char → List Char → Bool
  | [], _ => true
  | _ :: _, [] => false
  | a :: as, b :: bs => a == b && leadsWith as bs

/-- Python `str.startswith` on strings. -/
def pyStartsWith (s pre : String) : Bool :=
  leadsWith pre.toList s.toList

/-- Worker for `listReplace`: the `Nat` argument counts characters of a
just-matched occurrence that remain to be skipped. -/
def listReplaceAux (pat repl : List Char) : List Char → Nat → List Char
  | [], _ => []
  | _ :: rest, n + 1 => listReplaceAux pat repl rest n
  | c :: rest, 0 =>
    if pat ≠ [] ∧ leadsWith pat (c :: rest) = true then
      repl ++ listReplaceAux pat repl rest (pat.length - 1)
    else c :: listReplaceAux pat repl rest 0

/-- Python `str.replace(pat, repl)`: replace every non-overlapping
occurrence, scanning left to right. -/
def listReplace (pat repl l : List Char) : List Char :=
  listReplaceAux pat repl l 0

/-- Substring test (Python `needle in line`). -/
def containsSub (needle : List Char) : List Char → Bool
  | [] => leadsWith needle []
  | c :: rest => leadsWith needle (c :: rest) || containsSub needle rest

/-- Python `str.split(sep)` for a single-character separator. -/
def pySplit (sep : Char) : List Char → List (List Char)
  | [] => [[]]
  | c :: rest =>
    if c == sep then [] :: pySplit sep rest
    else
      match pySplit sep rest with
      | h :: t => (c :: h) :: t
      | [] => [[c]]

/-- Python `sep.join(lines)` for list-of-characters lines. -/
def joinWith (sep : List Char) : List (List Char) → List Char
  | [] => []
  | [l] => l
  | l :: ls => l ++ sep ++ joinWith sep ls

/-- Python `str.strip()`: drop leading and trailing whitespace. -/
def pyStrip (l : List Char) : List Char :=
  ((l.dropWhile Char.isWhitespace).reverse.dropWhile Char.isWhitespace).reverse

/-- Export commands written to the session before an external invocation
(interpreter.py lines 204-206 and 233-235):
`export name='value'` for every interpreter variable. -/
def exportCommands (vars : Env) : List String :=
  vars.map (fun p =>
    "export " ++ p.1 ++ "=" ++ String.mk [squoteChar] ++ p.2
      ++ String.mk [squoteChar])

/-- Escaping applied by `evaluate_block_statement` (interpreter.py line
210): `command.replace('"', '\\"').replace('\n', '\\n')`. -/
def escapeBlockCommand (c : String) : String :=
  String.mk (listReplace ['\n'] [backslashChar, 'n']
    (listReplace [dquoteChar] [backslashChar, dquoteChar] c.toList))

/-- `Interpreter.evaluate_block_statement` (interpreter.py lines 187-220)
with the block's command expression already evaluated to `command`.  The
session is abstracted by its exit-status oracle `exitCode`; every text
submitted to the session (variable exports, then the `block` call) is
appended to `log`.  When the evaluated command is not a string the method
skips the entire export-and-execute branch and returns False. -/
def evaluate_block_statement (options : List String) (command : Value)
    (vars : Env) (exitCode : String → Int) (log : List String) :
    Bool × List String :=
  match command with
  | Value.str c =>
    let log2 := log ++ exportCommands vars
    let cmd := "block " ++ String.intercalate " " options ++ " "
      ++ String.mk [dquoteChar] ++ escapeBlockCommand c ++ String.mk [dquoteChar]
    (exitCode cmd == 0, log2 ++ [cmd])
  | _ => (false, log)

/-- `Interpreter.evaluate_atom_statement` (interpreter.py lines 222-247)
with the atom's command expression already evaluated to `command`;
modelled exactly like `evaluate_block_statement` (note the atom path does
not escape the command text). -/
def evaluate_atom_statement (description : String) (command : Value)
    (vars : Env) (exitCode : String → Int) (log : List String) :
    Bool × List String :=
  match command with
  | Value.str c =>
    let log2 := log ++ exportCommands vars
    let cmd := "atom " ++ String.mk [dquoteChar] ++ description
      ++ String.mk [dquoteChar] ++ " " ++ String.mk [dquoteChar] ++ c
      ++ String.mk [dquoteChar]
    (exitCode cmd == 0, log2 ++ [cmd])
  | _ => (false, log)

/-- Character class of the tail of a `$name` variable reference:
the regex class `[A-Za-z0-9_]` used in `_expand_variables`. -/
def varTailChar (c : Char) : Bool :=
  c.isAlphanum || c == '_'

/-- Variable pass of `Interpreter._expand_variables` and the whole of
`Interpreter._expand_variables_only` (interpreter.py lines 100-110 and
134-144): one left-to-right pass of
`re.sub(r'\$\x7b([^\x7d]+)\x7d|\$([A-Za-z_][A-Za-z0-9_]*)', replace_var, text)`
where `replace_var` yields `variables.get(name, "$" + name)`.  The `Nat`
argument counts characters of a just-replaced occurrence that remain to
be skipped, so replaced text is never rescanned, exactly as `re.sub`
behaves. -/
def expandVarsAux (env : String → Option String) : List Char → Nat → List Char
  | [], _ => []
  | _ :: rest, n + 1 => expandVarsAux env rest n
  | '$' :: rest, 0 =>
    match rest with
    | [] => ['$']
    | c2 :: rest2 =>
      if c2 == lbraceChar then
        let inner := rest2.takeWhile (fun c => c != rbraceChar)
        let after := rest2.dropWhile (fun c => c != rbraceChar)
        if inner ≠ [] ∧ after ≠ [] then
          (match env (String.mk inner) with
           | some v => v.toList
           | Option.none => '$' :: inner) ++ expandVarsAux env rest (inner.length + 2)
        else '$' :: expandVarsAux env rest 0
      else if c2.isAlpha || c2 == '_' then
        let tailChars := rest2.takeWhile varTailChar
        let name := c2 :: tailChars
        (match env (String.mk name) with
         | some v => v.toList
         | Option.none => '$' :: name) ++ expandVarsAux env rest (tailChars.length + 1)
      else '$' :: expandVarsAux env rest 0
  | c :: rest, 0 => c :: expandVarsAux env rest 0

/-- `Interpreter._expand_variables_only` (interpreter.py lines 134-144) on
strings. -/
def expand_variables_only (vars : Env) (text : String) : String :=
  String.mk (expandVarsAux (lookupVar vars) text.toList 0)

/-- The `replace_cmd` closure of `_expand_variables` (interpreter.py lines
113-125): the captured inner text is variable-expanded only, submitted to
the session (whose stdout is the oracle `out`), and the stdout is
stripped.  The session never raising is modelled by `out` being total. -/
def replaceCmd (vars : Env) (out : String → String) (cmd : String) : String :=
  let expandedCmd := expand_variables_only vars cmd
  String.mk (pyStrip (out expandedCmd).toList)

/-- Command-substitution pass of `_expand_variables` (interpreter.py line
127): one left-to-right pass of `re.sub(r'\$\(([^)]+)\)', replace_cmd, text)`.
The capture group `[^)]+` excludes `)` but includes `(`, and replaced text
is never rescanned (skip counter as in `expandVarsAux`). -/
def cmdSubAux (repl : String → String) : List Char → Nat → List Char
  | [], _ => []
  | _ :: rest, n + 1 => cmdSubAux repl rest n
  | '$' :: rest, 0 =>
    match rest with
    | '(' :: rest2 =>
      let inner := rest2.takeWhile (fun c => c != ')')
      let after := rest2.dropWhile (fun c => c != ')')
      if inner ≠ [] ∧ after ≠ [] then
        (repl (String.mk inner)).toList ++ cmdSubAux repl rest (inner.length + 2)
      else '$' :: cmdSubAux repl rest 0
    | _ => '$' :: cmdSubAux repl rest 0
  | c :: rest, 0 => c :: cmdSubAux repl rest 0

/-- `Interpreter._expand_variables` (interpreter.py lines 100-132):
variable pass, then command-substitution pass, then translation of the
literal escape sequences `\n` and `\t`. -/
def expand_variables (vars : Env) (out : String → String) (text : String) :
    String :=
  let t1 := expandVarsAux (lookupVar vars) text.toList 0
  let t2 := cmdSubAux (replaceCmd vars out) t1 0
  let t3 := listReplace [backslashChar, 'n'] ['\n'] t2
  String.mk (listReplace [backslashChar, 't'] ['\t'] t3)

/-- One pass of `re.sub(r'\x1b\[[0-9;]*m', '', output)` in
`evaluate_command_substitution` (interpreter.py line 469). -/
def ansiAux : List Char → Nat → List Char
  | [], _ => []
  | _ :: rest, n + 1 => ansiAux rest n
  | '\x1b' :: rest, 0 =>
    match rest with
    | '[' :: rest2 =>
      let run := rest2.takeWhile (fun c => c.isDigit || c == ';')
      let after := rest2.dropWhile (fun c => c.isDigit || c == ';')
      if after.head? = some 'm' then ansiAux rest (run.length + 2)
      else '\x1b' :: ansiAux rest 0
    | _ => '\x1b' :: ansiAux rest 0
  | c :: rest, 0 => c :: ansiAux rest 0

/-- Noise substrings filtered out of command-substitution output
(interpreter.py lines 473-475). -/
def noiseNeedles : List String :=
  ["Found local bin", "Running from repository", "Skipped sync"]

/-- Whether a line contains one of the noise substrings. -/
def isNoiseLine (line : List Char) : Bool :=
  noiseNeedles.any (fun n => containsSub n.toList line)

/-- `Interpreter.evaluate_command_substitution` (interpreter.py lines
454-479), value part: the command is submitted to the session unchanged
(oracle `out` gives its stdout), then the output is stripped, ANSI escape
sequences are removed, noise lines are dropped, and the result is
stripped again.  The variable exports this method also performs are
session submissions that do not affect the returned value. -/
def evaluate_command_substitution (out : String → String) (cmd : String) :
    String :=
  let output := pyStrip (out cmd).toList
  let output2 := ansiAux output 0
  let lines := pySplit '\n' output2
  let cleanLines := lines.filter (fun line => !isNoiseLine line)
  String.mk (pyStrip (joinWith ['\n'] cleanLines))

/-- The matches of one `re.finditer(r'\$\(([^)]+)\)', value_str)` scan in
`evaluate_variable_assignment` (interpreter.py line 499), as
(whole match, captured inner text) pairs, left to right,
non-overlapping. -/
def findCmdSubs : List Char → Nat → List (String × String)
  | [], _ => []
  | _ :: rest, n + 1 => findCmdSubs rest n
  | '$' :: rest, 0 =>
    match rest with
    | '(' :: rest2 =>
      let inner := rest2.takeWhile (fun c => c != ')')
      let after := rest2.dropWhile (fun c => c != ')')
      if inner ≠ [] ∧ after ≠ [] then
        ("$(" ++ String.mk inner ++ ")", String.mk inner)
          :: findCmdSubs rest (inner.length + 2)
      else findCmdSubs rest 0
    | _ => findCmdSubs rest 0
  | _ :: rest, 0 => findCmdSubs rest 0

/-- Body of one iteration of the `while re.search(...)` loop in
`evaluate_variable_assignment` (interpreter.py lines 499-503): every
match of the scan is executed via `evaluate_command_substitution` and all
occurrences of its whole text are replaced by the result. -/
def assignExpandStep (out : String → String) (s : List Char) : List Char :=
  (findCmdSubs s 0).foldl
    (fun acc m =>
      listReplace m.1.toList (evaluate_command_substitution out m.2).toList acc)
    s

/-- The `while re.search(cmd_pattern, value_str)` loop of
`evaluate_variable_assignment` (interpreter.py lines 498-503), fuel
indexed: `Option.none` means the loop has not finished within `fuel`
iterations. -/
def assignCmdSubLoop (out : String → String) : Nat → List Char → Option (List Char)
  | 0, _ => Option.none
  | fuel + 1, s =>
    if findCmdSubs s 0 = [] then some s
    else assignCmdSubLoop out fuel (assignExpandStep out s)

/-- `Interpreter.evaluate_variable_assignment` (interpreter.py lines
481-511) for a `StringLiteral` right-hand side `rhs`: the literal is
expanded by `_expand_variables` (via `evaluate`), then every `$name` for a
currently bound variable is textually replaced, then the re-scanning
command-substitution loop runs; finally the value is stored.
`Option.none` means the loop never finished within `fuel` iterations. -/
def evaluate_variable_assignment (vars : Env) (out : String → String)
    (fuel : Nat) (name rhs : String) : Option (String × Env) :=
  let value := expand_variables vars out rhs
  let v1 := vars.foldl
    (fun s p => listReplace ('$' :: p.1.toList) p.2.toList s) value.toList
  match assignCmdSubLoop out fuel v1 with
  | Option.none => Option.none
  | some v2 => some (String.mk v2, insertVar vars name (String.mk v2))

/-- Parsing of option specifications in `evaluate_opts_statement`
(interpreter.py lines 254-265): each spec is split on `:`; with at least
two parts the first is the flag, the second the variable name, the third
(when present) the default; an empty default is NOT recorded
(`if default:`). Returns (option map, defaults map). -/
def parseSpecs (specs : List String) :
    List (String × String) × List (String × String) :=
  specs.foldl
    (fun maps spec =>
      match pySplit ':' spec.toList with
      | flag :: varname :: restParts =>
        let f := String.mk flag
        let v := String.mk varname
        let d := match restParts with
          | [] => ""
          | d0 :: _ => String.mk d0
        (insertVar maps.1 f v, if d ≠ "" then insertVar maps.2 v d else maps.2)
      | _ => maps)
    ([], [])

/-- Argument-vector loop of `evaluate_opts_statement` (interpreter.py
lines 275-302): a `-flag` (but not `--flag`) argument is looked up in the
option map; a following non-dash argument is consumed as its value,
otherwise the flag is boolean `"true"`; an unrecognized flag aborts with
that argument (Python prints a usage error and returns False); non-flag
arguments are skipped. -/
def parseArgs (optionMap : List (String × String)) :
    List String → List (String × String) → Except String (List (String × String))
  | [], parsed => Except.ok parsed
  | [arg], parsed =>
    if pyStartsWith arg "-" && !pyStartsWith arg "--" then
      match lookupVar optionMap (arg.drop 1) with
      | some varname => parseArgs optionMap [] (insertVar parsed varname "true")
      | Option.none => Except.error arg
    else parseArgs optionMap [] parsed
  | arg :: next :: rest2, parsed =>
    if pyStartsWith arg "-" && !pyStartsWith arg "--" then
      match lookupVar optionMap (arg.drop 1) with
      | some varname =>
        if !pyStartsWith next "-" then
          parseArgs optionMap rest2 (insertVar parsed varname next)
        else parseArgs optionMap (next :: rest2) (insertVar parsed varname "true")
      | Option.none => Except.error arg
    else parseArgs optionMap (next :: rest2) parsed

/-- Default filling of `evaluate_opts_statement` (interpreter.py lines
305-307): each recorded default is installed only when the variable was
not parsed from the arguments. -/
def applyDefaults (defaults parsed : List (String × String)) :
    List (String × String) :=
  defaults.foldl
    (fun pv p => if pv.any (fun q => q.1 == p.1) then pv else insertVar pv p.1 p.2)
    parsed

/-- Saving of prior values in `evaluate_opts_statement` (interpreter.py
lines 310-313): for each variable about to be set, its current value is
recorded if it has one. -/
def saveOldVars (parsed : List (String × String)) (env : Env) :
    List (String × String) :=
  parsed.foldl
    (fun acc p =>
      match lookupVar env p.1 with
      | some w => insertVar acc p.1 w
      | Option.none => acc)
    []

/-- Installation of parsed variables (interpreter.py lines 316-318). -/
def installVars (parsed : List (String × String)) (env : Env) : Env :=
  parsed.foldl (fun e p => insertVar e p.1 p.2) env

/-- The `finally` restore loop of `evaluate_opts_statement`
(interpreter.py lines 329-334): every parsed variable is set back to its
saved prior value, or deleted when it had none. -/
def restoreVars (parsed oldVars : List (String × String)) (env : Env) : Env :=
  parsed.foldl
    (fun e p =>
      match lookupVar oldVars p.1 with
      | some w => insertVar e p.1 w
      | Option.none => eraseVar e p.1)
    env

/-- Usage-error output of `evaluate_opts_statement` (interpreter.py lines
296-298). -/
def usageMessage (optionMap : List (String × String)) (arg : String) :
    List String :=
  ["Unknown option: " ++ arg,
   "Available options: "
     ++ String.intercalate ", " (optionMap.map (fun p => "-" ++ p.1))]

/-- Outcome of `evaluate_opts_statement`: an unrecognized flag makes the
method print a usage error and return False without touching the
environment or the body (`usageError` carries the printed lines and the
untouched environment); otherwise the body runs and its last result and
the restored environment are returned. -/
inductive OptsResult (α : Type) where
  | usageError (stderr : List String) (env : Env)
  | completed (result : Option α) (env : Env)
deriving DecidableEq, Repr

/-- `Interpreter.evaluate_opts_statement` (interpreter.py lines 249-336).
The invocation argument vector (Python `sys.argv[2:]`) is the parameter
`args`; the body is abstracted as a function from the overlay environment
to the environment it leaves behind (however it terminates — normally,
by early return, or abnormally: the Python restore runs in `finally`)
together with its last result. -/
def evaluate_opts_statement {α : Type} (specs args : List String) (env : Env)
    (body : Env → Env × Option α) : OptsResult α :=
  let maps := parseSpecs specs
  match parseArgs maps.1 args [] with
  | Except.error arg => OptsResult.usageError (usageMessage maps.1 arg) env
  | Except.ok parsedArgs =>
    let parsed := applyDefaults maps.2 parsedArgs
    let oldVars := saveOldVars parsed env
    let overlay := installVars parsed env
    let bodyOut := body overlay
    OptsResult.completed bodyOut.2 (restoreVars parsed oldVars bodyOut.1)

/-- The token kinds declared in token_types.py.  Note the file declares
NO arithmetic-expansion member, although lexer.py line 184 refers to
`TokenType.ARITHMETIC_EXPANSION`; accessing that missing enum member
raises `AttributeError` at runtime. -/
inductive TokenType where
  | STRING | IDENTIFIER | NUMBER
  | BLOCK | ATOM | OPTS | IF | THEN | ELSE | FI
  | WHILE | DO | DONE | FOR | IN
  | PIPE | AND | OR | SEMICOLON | EQUALS
  | LPAREN | RPAREN | LBRACE | RBRACE
  | OPTION | NEWLINE | EOF | COMMAND_SUB
deriving DecidableEq, Repr

/-- Tokens (token_types.py): kind, literal text, line and column. -/
structure Token where
  type : TokenType
  value : String
  line : Nat
  column : Nat
deriving DecidableEq, Repr

/-- Exceptions the lexer can raise: `None in ' \t'` in `skip_whitespace`
is a TypeError, and `TokenType.ARITHMETIC_EXPANSION` (a missing enum
member) is an AttributeError. -/
inductive LexError where
  | typeError
  | attributeError
deriving DecidableEq, Repr

/-- Lexer state: remaining input (`source[position:]`), current line and
column, and the tokens emitted so far. -/
structure LexState where
  rest : List Char
  line : Nat
  column : Nat
  tokens : List Token
deriving Repr

/-- `Lexer.skip_whitespace` (lexer.py lines 36-38):
`while self.current_char() in ' \t': self.advance()`.  When the input is
exhausted `current_char()` is Python `None` and `None in ' \t'` raises
TypeError.  Whitespace is never a newline, so only the column advances. -/
def skipWhitespaceLoop : List Char → Nat → Except LexError (List Char × Nat)
  | [], _ => Except.error LexError.typeError
  | c :: rest, co =>
    if c == ' ' || c == '\t' then skipWhitespaceLoop rest (co + 1)
    else Except.ok (c :: rest, co)

/-- `Lexer.skip_comment` (lexer.py lines 40-42): consume to end of line or
end of input. -/
def skipCommentLoop : List Char → Nat → List Char × Nat
  | [], co => ([], co)
  | c :: rest, co =>
    if c == '\n' then (c :: rest, co) else skipCommentLoop rest (co + 1)

/-- `Lexer.read_string` (lexer.py lines 44-74) after the opening quote has
been consumed: characters up to the closing quote, with backslash escapes
(`\n \t \r \\` and the quote; unknown escapes pass the next character
through).  Returns (value, remaining input, line, column). -/
def readStringLoop (q : Char) : List Char → Nat → Nat →
    List Char × List Char × Nat × Nat
  | [], l, co => ([], [], l, co)
  | c :: rest, l, co =>
    if c == q then ([], rest, l, co + 1)
    else if c == backslashChar then
      match rest with
      | [] => ([], [], l, co + 1)
      | e :: rest2 =>
        let ec :=
          if e == 'n' then '\n'
          else if e == 't' then '\t'
          else if e == 'r' then '\r'
          else if e == backslashChar then backslashChar
          else if e == q then q
          else e
        let pos2 := if e == '\n' then (l + 1, 1) else (l, co + 2)
        let r := readStringLoop q rest2 pos2.1 pos2.2
        (ec :: r.1, r.2.1, r.2.2.1, r.2.2.2)
    else
      let pos2 := if c == '\n' then (l + 1, 1) else (l, co + 1)
      let r := readStringLoop q rest pos2.1 pos2.2
      (c :: r.1, r.2.1, r.2.2.1, r.2.2.2)

/-- Identifier characters of `Lexer.read_identifier` (lexer.py line 78):
alphanumeric, `_` or `-`. -/
def identChar (c : Char) : Bool :=
  c.isAlphanum || c == '_' || c == '-'

/-- `Lexer.read_identifier` (lexer.py lines 76-81).  Returns
(identifier, remaining input, column); identifier characters are never
newlines.  On a character outside the class it consumes NOTHING. -/
def readIdentifierLoop : List Char → Nat → List Char × List Char × Nat
  | [], co => ([], [], co)
  | c :: rest, co =>
    if identChar c then
      let r := readIdentifierLoop rest (co + 1)
      (c :: r.1, r.2.1, r.2.2)
    else ([], c :: rest, co)

/-- Number characters of the lexer's number branch (lexer.py line 258). -/
def numberChar (c : Char) : Bool :=
  c.isDigit || c == '.'

/-- Number scan (lexer.py lines 256-261). -/
def readNumberLoop : List Char → Nat → List Char × List Char × Nat
  | [], co => ([], [], co)
  | c :: rest, co =>
    if numberChar c then
      let r := readNumberLoop rest (co + 1)
      (c :: r.1, r.2.1, r.2.2)
    else ([], c :: rest, co)

/-- Characters of the bash-compatibility identifier branch (lexer.py lines
271-278): alphanumeric or one of `_ . - / : @ $`. -/
def bashChar (c : Char) : Bool :=
  c.isAlphanum || c == '_' || c == '.' || c == '-' || c == '/' || c == ':'
    || c == '@' || c == '$'

/-- Characters that START the bash-compatibility branch (lexer.py line
272): `. - / : @ $`. -/
def bashStartChar (c : Char) : Bool :=
  c == '.' || c == '-' || c == '/' || c == ':' || c == '@' || c == '$'

/-- Bash-compatibility identifier scan (lexer.py lines 273-277). -/
def bashCompatLoop : List Char → Nat → List Char × List Char × Nat
  | [], co => ([], [], co)
  | c :: rest, co =>
    if bashChar c then
      let r := bashCompatLoop rest (co + 1)
      (c :: r.1, r.2.1, r.2.2)
    else ([], c :: rest, co)

/-- The `$(command)` scanning loop of `Lexer.read_command_substitution`
(lexer.py lines 124-132), entered with `paren_count = 1` after `$(`:
the count is adjusted per `(`/`)`, the character is kept while the
adjusted count is positive, and scanning stops when it reaches zero. -/
def csLoop : Nat → List Char → Nat → Nat → List Char × List Char × Nat × Nat
  | _, [], l, co => ([], [], l, co)
  | count, '(' :: rest, l, co =>
    let r := csLoop (count + 1) rest l (co + 1)
    ('(' :: r.1, r.2.1, r.2.2.1, r.2.2.2)
  | count, ')' :: rest, l, co =>
    if count - 1 > 0 then
      let r := csLoop (count - 1) rest l (co + 1)
      (')' :: r.1, r.2.1, r.2.2.1, r.2.2.2)
    else ([], rest, l, co + 1)
  | count, c :: rest, l, co =>
    let pos2 := if c == '\n' then (l + 1, 1) else (l, co + 1)
    let r := csLoop count rest pos2.1 pos2.2
    (c :: r.1, r.2.1, r.2.2.1, r.2.2.2)

/-- The backquote scanning loop of `Lexer.read_command_substitution`
(lexer.py lines 135-147). -/
def backtickLoop : List Char → Nat → Nat → List Char × List Char × Nat × Nat
  | [], l, co => ([], [], l, co)
  | c :: rest, l, co =>
    if c == backquoteChar then ([], rest, l, co + 1)
    else
      let pos2 := if c == '\n' then (l + 1, 1) else (l, co + 1)
      let r := backtickLoop rest pos2.1 pos2.2
      (c :: r.1, r.2.1, r.2.2.1, r.2.2.2)

/-- `Lexer.read_command_substitution` (lexer.py lines 113-149): for
`$(...)` (but not `$((...))`, which it refuses) it scans with a nested
parenthesis count; for a backquote it scans to the closing backquote;
otherwise it returns the empty payload without consuming anything. -/
def read_command_substitution : List Char → Nat → Nat →
    String × List Char × Nat × Nat
  | '$' :: '(' :: '(' :: rest, l, co => ("", '$' :: '(' :: '(' :: rest, l, co)
  | '$' :: '(' :: rest, l, co =>
    let r := csLoop 1 rest l (co + 2)
    (String.mk r.1, r.2.1, r.2.2.1, r.2.2.2)
  | c :: rest, l, co =>
    if c == backquoteChar then
      let r := backtickLoop rest l (co + 1)
      (String.mk r.1, r.2.1, r.2.2.1, r.2.2.2)
    else ("", c :: rest, l, co)
  | [], l, co => ("", [], l, co)

/-- The scanning loop of `Lexer.read_arithmetic_expansion` (lexer.py lines
92-109), entered after `$((`: inner parentheses are counted, and the
payload ends at the first unnested `)` (with the following `)` also
consumed when present).  `tokenize` raises AttributeError immediately
after calling this (see `TokenType`), so its result is never used. -/
def arithLoop : Nat → List Char → List Char × List Char
  | _, [] => ([], [])
  | count, '(' :: rest =>
    let r := arithLoop (count + 1) rest
    ('(' :: r.1, r.2)
  | count, ')' :: rest =>
    if count > 0 then
      let r := arithLoop (count - 1) rest
      (')' :: r.1, r.2)
    else
      match rest with
      | ')' :: rest2 => ([], rest2)
      | _ => ([], rest)
  | count, c :: rest =>
    let r := arithLoop count rest
    (c :: r.1, r.2)

/-- Well-formedness of nested parentheses at nesting depth `d`: every
prefix keeps the depth non-negative and the whole text returns to depth
`d = 0`.  This is the "well-formed `$(...)` text" notion of the
specification. -/
def balancedAux : Nat → List Char → Bool
  | d, [] => d == 0
  | d, '(' :: rest => balancedAux (d + 1) rest
  | d, ')' :: rest => if d = 0 then false else balancedAux (d - 1) rest
  | d, _ :: rest => balancedAux d rest

/-- Keyword table of `Lexer.tokenize` (lexer.py lines 152-153). -/
def keywordTable : List (String × TokenType) :=
  [("block", TokenType.BLOCK), ("atom", TokenType.ATOM),
   ("opts", TokenType.OPTS), ("if", TokenType.IF), ("then", TokenType.THEN),
   ("else", TokenType.ELSE), ("fi", TokenType.FI)]

/-- `keywords.get(identifier.lower(), TokenType.IDENTIFIER)` (lexer.py
line 267). -/
def keywordType (s : String) : TokenType :=
  match keywordTable.find? (fun p => p.1 == s.toLower) with
  | some p => p.2
  | Option.none => TokenType.IDENTIFIER

/-- The main loop of `Lexer.tokenize` (lexer.py lines 151-286), fuel
indexed: `Option.none` means the loop has not finished within `fuel`
iterations; `some (Except.error e)` means the Python code raised; and
`some (Except.ok toks)` is a normal return, with the EOF token appended.
The branch structure and order follow the source exactly; the
arithmetic-expansion branch raises AttributeError because
`TokenType.ARITHMETIC_EXPANSION` does not exist (see `TokenType`). -/
def tokenizeLoop : Nat → LexState → Option (Except LexError (List Token))
  | 0, _ => Option.none
  | fuel + 1, st =>
    match st.rest with
    | [] =>
      some (Except.ok (st.tokens ++ [⟨TokenType.EOF, "", st.line, st.column⟩]))
    | ch :: rest =>
      let sl := st.line
      let sc := st.column
      if ch == ' ' || ch == '\t' then
        match skipWhitespaceLoop st.rest sc with
        | Except.error e => some (Except.error e)
        | Except.ok r => tokenizeLoop fuel ⟨r.1, sl, r.2, st.tokens⟩
      else if ch == '#' then
        let r := skipCommentLoop st.rest sc
        tokenizeLoop fuel ⟨r.1, sl, r.2, st.tokens⟩
      else if ch == '\n' then
        tokenizeLoop fuel
          ⟨rest, sl + 1, 1, st.tokens ++ [⟨TokenType.NEWLINE, "\n", sl, sc⟩]⟩
      else if ch == dquoteChar || ch == squoteChar then
        let r := readStringLoop ch rest sl (sc + 1)
        tokenizeLoop fuel
          ⟨r.2.1, r.2.2.1, r.2.2.2,
           st.tokens ++ [⟨TokenType.STRING, String.mk r.1, sl, sc⟩]⟩
      else if ch == '$' && rest.head? == some '(' && rest.get? 1 == some '(' then
        some (Except.error LexError.attributeError)
      else if (ch == '$' && rest.head? == some '(') || ch == backquoteChar then
        let r := read_command_substitution st.rest sl sc
        tokenizeLoop fuel
          ⟨r.2.1, r.2.2.1, r.2.2.2,
           st.tokens ++ [⟨TokenType.COMMAND_SUB, r.1, sl, sc⟩]⟩
      else if ch == '-' && rest.head? == some '-' then
        let r := readIdentifierLoop (rest.drop 1) (sc + 2)
        tokenizeLoop fuel
          ⟨r.2.1, sl, r.2.2,
           st.tokens ++ [⟨TokenType.OPTION, "--" ++ String.mk r.1, sl, sc⟩]⟩
      else if ch == '|' then
        if rest.head? == some '|' then
          tokenizeLoop fuel
            ⟨rest.drop 1, sl, sc + 2, st.tokens ++ [⟨TokenType.OR, "||", sl, sc⟩]⟩
        else
          tokenizeLoop fuel
            ⟨rest, sl, sc + 1, st.tokens ++ [⟨TokenType.PIPE, "|", sl, sc⟩]⟩
      else if ch == '&' then
        if rest.head? == some '&' then
          tokenizeLoop fuel
            ⟨rest.drop 1, sl, sc + 2, st.tokens ++ [⟨TokenType.AND, "&&", sl, sc⟩]⟩
        else
          let r := readIdentifierLoop st.rest sc
          tokenizeLoop fuel
            ⟨r.2.1, sl, r.2.2,
             st.tokens ++ [⟨TokenType.IDENTIFIER, String.mk r.1, sl, sc⟩]⟩
      else if ch == ';' then
        tokenizeLoop fuel
          ⟨rest, sl, sc + 1, st.tokens ++ [⟨TokenType.SEMICOLON, ";", sl, sc⟩]⟩
      else if ch == '=' then
        tokenizeLoop fuel
          ⟨rest, sl, sc + 1, st.tokens ++ [⟨TokenType.EQUALS, "=", sl, sc⟩]⟩
      else if ch == '(' then
        tokenizeLoop fuel
          ⟨rest, sl, sc + 1, st.tokens ++ [⟨TokenType.LPAREN, "(", sl, sc⟩]⟩
      else if ch == ')' then
        tokenizeLoop fuel
          ⟨rest, sl, sc + 1, st.tokens ++ [⟨TokenType.RPAREN, ")", sl, sc⟩]⟩
      else if ch == lbraceChar then
        tokenizeLoop fuel
          ⟨rest, sl, sc + 1,
           st.tokens ++ [⟨TokenType.LBRACE, String.mk [lbraceChar], sl, sc⟩]⟩
      else if ch == rbraceChar then
        tokenizeLoop fuel
          ⟨rest, sl, sc + 1,
           st.tokens ++ [⟨TokenType.RBRACE, String.mk [rbraceChar], sl, sc⟩]⟩
      else if ch.isDigit then
        let r := readNumberLoop st.rest sc
        tokenizeLoop fuel
          ⟨r.2.1, sl, r.2.2,
           st.tokens ++ [⟨TokenType.NUMBER, String.mk r.1, sl, sc⟩]⟩
      else if ch.isAlpha || ch == '_' then
        let r := readIdentifierLoop st.rest sc
        tokenizeLoop fuel
          ⟨r.2.1, sl, r.2.2,
           st.tokens ++ [⟨keywordType (String.mk r.1), String.mk r.1, sl, sc⟩]⟩
      else if bashStartChar ch then
        let r := bashCompatLoop st.rest sc
        tokenizeLoop fuel
          ⟨r.2.1, sl, r.2.2,
           st.tokens ++ [⟨TokenType.IDENTIFIER, String.mk r.1, sl, sc⟩]⟩
      else
        tokenizeLoop fuel ⟨rest, sl, sc + 1, st.tokens⟩

/-- `Lexer.tokenize` on a whole source string, starting at line 1 column 1
with no tokens, with the given iteration fuel. -/
def tokenize (fuel : Nat) (source : String) :
    Option (Except LexError (List Token)) :=
  tokenizeLoop fuel ⟨source.toList, 1, 1, []⟩

/-! Helper lemmas about the variable store. -/

/-- Membership test `k in d` agrees with `d.get(k)` being defined. -/
theorem any_eq_lookup_isSome (k : String) :
    ∀ env : Env, env.any (fun p => p.1 == k) = (lookupVar env k).isSome := by
  intro env
  induction env with
  | nil => rfl
  | cons a l ih =>
    by_cases h : a.1 = k
    · simp [lookupVar, h]
    · simp [lookupVar, h, ih]

/-- Lookup after the in-place update branch of `insertVar`. -/
theorem lookup_map_update (k v k' : String) :
    ∀ env : Env,
      lookupVar (env.map (fun p => if p.1 == k then (p.1, v) else p)) k'
        = if k' = k then Option.map (fun _ => v) (lookupVar env k)
          else lookupVar env k' := by
  intro env
  induction env with
  | nil => by_cases hk : k' = k <;> simp [lookupVar, hk]
  | cons a l ih =>
    simp only [beq_iff_eq] at ih ⊢
    by_cases hak : a.1 = k
    · by_cases hk : k' = k
      · subst hk; simp [lookupVar, hak, ih]
      · have hk2 : ¬k = k' := fun h => hk h.symm
        simp [lookupVar, hak, ih, hk, hk2]
    · by_cases hk : k' = k
      · subst hk
        have hak2 : ¬a.1 = k' := hak
        simp [lookupVar, hak, hak2, ih]
      · by_cases hak' : a.1 = k'
        · simp [lookupVar, hak, hak', ih, hk]
        · simp [lookupVar, hak, hak', ih, hk]

/-- Lookup after the append branch of `insertVar`. -/
theorem lookup_append_single (k v k' : String) :
    ∀ env : Env,
      lookupVar (env ++ [(k, v)]) k'
        = match lookupVar env k' with
          | some w => some w
          | Option.none => if k' = k then some v else Option.none := by
  intro env
  induction env with
  | nil =>
    by_cases hk : k' = k
    · subst hk; simp [lookupVar]
    · have hk2 : ¬k = k' := fun h => hk h.symm
      simp [lookupVar, hk, hk2]
  | cons a l ih =>
    by_cases hak : a.1 = k'
    · simp [lookupVar, hak]
    · simp [lookupVar, hak, ih]

/-- Python dict: `d[k] = v` makes `d.get(k)` return `v` and leaves every
other key unchanged. -/
theorem lookupVar_insert (k v k' : String) (env : Env) :
    lookupVar (insertVar env k v) k'
      = if k' = k then some v else lookupVar env k' := by
  unfold insertVar
  by_cases hany : env.any (fun p => p.1 == k) = true
  · rw [if_pos hany, lookup_map_update]
    rw [any_eq_lookup_isSome] at hany
    by_cases hk : k' = k
    · subst hk
      obtain ⟨w, hw⟩ := Option.isSome_iff_exists.mp hany
      simp [hw]
    · simp [hk]
  · rw [if_neg hany, lookup_append_single]
    rw [any_eq_lookup_isSome] at hany
    by_cases hk : k' = k
    · subst hk
      have : lookupVar env k' = Option.none := by
        cases h : lookupVar env k' with
        | none => rfl
        | some w => rw [h] at hany; simp at hany
      simp [this]
    · cases h : lookupVar env k' with
      | none => simp [hk]
      | some w => simp [hk]

/-- Python dict: `del d[k]` makes `d.get(k)` undefined and leaves every
other key unchanged. -/
theorem lookupVar_erase (k k' : String) :
    ∀ env : Env, lookupVar (eraseVar env k) k'
      = if k' = k then Option.none else lookupVar env k' := by
  intro env
  induction env with
  | nil => by_cases hk : k' = k <;> simp [lookupVar, eraseVar, hk]
  | cons a l ih =>
    by_cases hak : a.1 = k
    · have h1 : (a.1 != k) = false := by simp [bne, hak]
      by_cases hk : k' = k
      · subst hk
        simp [eraseVar, List.filter_cons, h1] at ih ⊢
        simp [ih]
      · have hak' : ¬a.1 = k' := by rw [hak]; exact fun h => hk h.symm
        simp [eraseVar, List.filter_cons, h1] at ih ⊢
        simp [ih, hk, lookupVar, hak']
    · have h1 : (a.1 != k) = true := by simp [bne, hak]
      by_cases hk : k' = k
      · subst hk
        simp [eraseVar, List.filter_cons, h1] at ih ⊢
        simp [ih, lookupVar, hak]
      · simp [eraseVar, List.filter_cons, h1] at ih ⊢
        by_cases hak' : a.1 = k'
        · simp [ih, lookupVar, hak', hk]
        · simp [ih, lookupVar, hak', hk]

/-! Helper lemmas about the opts save/install/restore folds. -/

/-- The restore loop: a restored variable reads from the saved values, any
other variable reads from the environment the body left. -/
theorem restore_lookup (oldVars : List (String × String)) (v : String) :
    ∀ (parsed : List (String × String)) (e : Env),
      lookupVar (restoreVars parsed oldVars e) v
        = if parsed.any (fun p => p.1 == v) then lookupVar oldVars v
          else lookupVar e v := by
  intro parsed
  induction parsed with
  | nil => intro e; simp [restoreVars]
  | cons p rest ih =>
    intro e
    have hstep : restoreVars (p :: rest) oldVars e
        = restoreVars rest oldVars
            (match lookupVar oldVars p.1 with
             | some w => insertVar e p.1 w
             | Option.none => eraseVar e p.1) := rfl
    rw [hstep, ih]
    by_cases hpv : p.1 = v
    · subst hpv
      by_cases hr : rest.any (fun q => q.1 == p.1) = true
      · simp [hr]
      · simp only [Bool.not_eq_true] at hr
        cases h : lookupVar oldVars p.1 with
        | none => simp [hr, h, lookupVar_erase]
        | some w => simp [hr, h, lookupVar_insert]
    · have hvp : ¬v = p.1 := fun h => hpv h.symm
      have he : lookupVar
          (match lookupVar oldVars p.1 with
           | some w => insertVar e p.1 w
           | Option.none => eraseVar e p.1) v = lookupVar e v := by
        cases h : lookupVar oldVars p.1 with
        | none => simp [lookupVar_erase, hvp]
        | some w => simp [lookupVar_insert, hvp]
      rw [he]
      have hb : (p.1 == v) = false := by simp [hpv]
      rw [List.any_cons]
      simp only [hb, Bool.false_or]

/-- The save loop with a generalized accumulator. -/
theorem save_lookup_aux (env : Env) (v : String) :
    ∀ (parsed : List (String × String)) (acc : List (String × String)),
      lookupVar
          (parsed.foldl
            (fun acc p =>
              match lookupVar env p.1 with
              | some w => insertVar acc p.1 w
              | Option.none => acc) acc) v
        = if parsed.any (fun p => p.1 == v) && (lookupVar env v).isSome
          then lookupVar env v else lookupVar acc v := by
  intro parsed
  induction parsed with
  | nil => intro acc; simp
  | cons p rest ih =>
    intro acc
    rw [List.foldl_cons, ih]
    by_cases hpv : p.1 = v
    · subst hpv
      cases h : lookupVar env p.1 with
      | none => simp [h]
      | some w => simp [h, lookupVar_insert]
    · have hvp : ¬v = p.1 := fun h => hpv h.symm
      have he : lookupVar
          (match lookupVar env p.1 with
           | some w => insertVar acc p.1 w
           | Option.none => acc) v = lookupVar acc v := by
        cases h : lookupVar env p.1 with
        | none => rfl
        | some w => simp [lookupVar_insert, hvp]
      rw [he]
      have hb : (p.1 == v) = false := by simp [hpv]
      rw [List.any_cons]
      simp only [hb, Bool.false_or]

/-- The saved prior values are exactly the previously defined values of
the parsed variables. -/
theorem saveOld_lookup (parsed : List (String × String)) (env : Env)
    (v : String) :
    lookupVar (saveOldVars parsed env) v
      = if parsed.any (fun p => p.1 == v) && (lookupVar env v).isSome
        then lookupVar env v else Option.none := by
  unfold saveOldVars
  rw [save_lookup_aux]
  rfl

/-- Installing the overlay leaves any variable it does not set unchanged. -/
theorem install_lookup_off (v : String) :
    ∀ (parsed : List (String × String)) (e : Env),
      parsed.any (fun p => p.1 == v) = false →
      lookupVar (installVars parsed e) v = lookupVar e v := by
  intro parsed
  induction parsed with
  | nil => intro e _; rfl
  | cons p rest ih =>
    intro e h
    simp only [List.any_cons, Bool.or_eq_false_iff] at h
    have hpv : ¬v = p.1 := by
      intro hv
      have h1 := h.1
      simp [hv] at h1
    have hstep : installVars (p :: rest) e
        = installVars rest (insertVar e p.1 p.2) := rfl
    rw [hstep, ih _ (by simpa using h.2), lookupVar_insert, if_neg hpv]

/-- An argument vector containing a `-flag` whose flag is not in the
option map always drives the argument loop into its usage-error exit. -/
theorem parseArgs_unknown :
    ∀ (n : Nat) (m : List (String × String)) (args : List String)
      (parsed : List (String × String)),
      args.length ≤ n →
      (∃ a ∈ args, pyStartsWith a "-" = true ∧ pyStartsWith a "--" = false
        ∧ lookupVar m (a.drop 1) = Option.none) →
      ∃ bad, parseArgs m args parsed = Except.error bad := by
  intro n
  induction n with
  | zero =>
    intro m args parsed hlen hex
    obtain ⟨a, ha, _⟩ := hex
    rw [Nat.le_zero, List.length_eq_zero] at hlen
    subst hlen
    exact absurd ha (List.not_mem_nil a)
  | succ n ih =>
    intro m args parsed hlen hex
    match args with
    | [] =>
      obtain ⟨a, ha, _⟩ := hex
      exact absurd ha (List.not_mem_nil a)
    | [arg] =>
      obtain ⟨a, ha, h1, h2, h3⟩ := hex
      rw [List.mem_singleton] at ha
      subst ha
      refine ⟨a, ?_⟩
      simp [parseArgs, h1, h2, h3]
    | arg :: next :: rest2 =>
      by_cases hbad : pyStartsWith arg "-" = true ∧ pyStartsWith arg "--" = false
          ∧ lookupVar m (arg.drop 1) = Option.none
      · refine ⟨arg, ?_⟩
        simp [parseArgs, hbad.1, hbad.2.1, hbad.2.2]
      · have hmem : ∃ a ∈ next :: rest2, pyStartsWith a "-" = true
            ∧ pyStartsWith a "--" = false
            ∧ lookupVar m (a.drop 1) = Option.none := by
          obtain ⟨a, ha, h1, h2, h3⟩ := hex
          rcases List.mem_cons.mp ha with rfl | ha2
          · exact absurd ⟨h1, h2, h3⟩ hbad
          · exact ⟨a, ha2, h1, h2, h3⟩
        have hlen2 : (next :: rest2).length ≤ n := by
          simp at hlen ⊢; omega
        have hlen3 : rest2.length ≤ n := by
          simp at hlen ⊢; omega
        cases hcond : (pyStartsWith arg "-" && !pyStartsWith arg "--") with
        | false =>
          have hred : parseArgs m (arg :: next :: rest2) parsed
              = parseArgs m (next :: rest2) parsed := by
            simp [parseArgs, hcond]
          rw [hred]
          exact ih m (next :: rest2) parsed hlen2 hmem
        | true =>
          cases hlook : lookupVar m (arg.drop 1) with
          | none =>
            refine ⟨arg, ?_⟩
            simp [parseArgs, hcond, hlook]
          | some varname =>
            cases hnext : pyStartsWith next "-" with
            | false =>
              have hred : parseArgs m (arg :: next :: rest2) parsed
                  = parseArgs m rest2 (insertVar parsed varname next) := by
                simp [parseArgs, hcond, hlook, hnext]
              rw [hred]
              have hmem2 : ∃ a ∈ rest2, pyStartsWith a "-" = true
                  ∧ pyStartsWith a "--" = false
                  ∧ lookupVar m (a.drop 1) = Option.none := by
                obtain ⟨a, ha, h1, h2, h3⟩ := hmem
                rcases List.mem_cons.mp ha with rfl | ha2
                · rw [h1] at hnext; cases hnext
                · exact ⟨a, ha2, h1, h2, h3⟩
              exact ih m rest2 _ hlen3 hmem2
            | true =>
              have hred : parseArgs m (arg :: next :: rest2) parsed
                  = parseArgs m (next :: rest2)
                      (insertVar parsed varname "true") := by
                simp [parseArgs, hcond, hlook, hnext]
              rw [hred]
              exact ih m (next :: rest2) _ hlen2 hmem

/-! Helper lemmas about the expansion scanner. -/

/-- A run of characters satisfying a predicate followed by a failing
character splits `takeWhile`/`dropWhile` exactly. -/
theorem takeWhile_append_all (p : Char → Bool) :
    ∀ (l1 l2 : List Char), (∀ a ∈ l1, p a = true) →
      (∀ b, l2.head? = some b → p b = false) →
      (l1 ++ l2).takeWhile p = l1 ∧ (l1 ++ l2).dropWhile p = l2 := by
  intro l1
  induction l1 with
  | nil =>
    intro l2 _ h2
    cases l2 with
    | nil => simp
    | cons b t =>
      have hb := h2 b rfl
      simp [List.takeWhile_cons, List.dropWhile_cons, hb]
  | cons a l ih =>
    intro l2 h1 h2
    have ha : p a = true := h1 a (List.mem_cons_self a l)
    have ihl := ih l2 (fun x hx => h1 x (List.mem_cons_of_mem a hx)) h2
    simp [List.takeWhile_cons, List.dropWhile_cons, ha, ihl.1, ihl.2]

/-- The skip counter of the scanner consumes exactly the skipped
characters, as `re.sub` resumes after a replaced match. -/
theorem expandVarsAux_skip (env : String → Option String) :
    ∀ (xs rest : List Char),
      expandVarsAux env (xs ++ rest) xs.length = expandVarsAux env rest 0 := by
  intro xs
  induction xs with
  | nil => intro rest; rfl
  | cons x l ih =>
    intro rest
    simp only [List.cons_append, List.length_cons]
    rw [expandVarsAux]
    exact ih rest

/-- One `${name}` occurrence is resolved through the environment; when the
name is unbound the replacement is `"$" + name`, without braces. -/
theorem expandVars_brace (env : String → Option String) (name rest : List Char)
    (hne : name ≠ []) (hnb : ∀ ch ∈ name, ch ≠ rbraceChar) :
    expandVarsAux env ('$' :: lbraceChar :: (name ++ rbraceChar :: rest)) 0
      = (match env (String.mk name) with
         | some v => v.toList
         | Option.none => '$' :: name) ++ expandVarsAux env rest 0 := by
  have htd := takeWhile_append_all (fun c => c != rbraceChar) name
    (rbraceChar :: rest)
    (fun a ha => by simp [bne, hnb a ha])
    (fun b hb => by simp at hb; simp [bne, hb])
  have hskip : expandVarsAux env (lbraceChar :: (name ++ rbraceChar :: rest))
      (name.length + 2) = expandVarsAux env rest 0 := by
    have hrw : lbraceChar :: (name ++ rbraceChar :: rest)
        = ((lbraceChar :: name) ++ [rbraceChar]) ++ rest := by simp
    have hlen : name.length + 2 = ((lbraceChar :: name) ++ [rbraceChar]).length := by
      simp
    rw [hrw, hlen, expandVarsAux_skip]
  rw [expandVarsAux]
  simp only [htd.1, htd.2]
  rw [if_pos (by decide : (lbraceChar == lbraceChar) = true)]
  rw [if_pos (And.intro hne (List.cons_ne_nil _ _))]
  rw [hskip]

/-- One `$name` occurrence is resolved through the environment; when the
name is unbound the original text passes through unchanged. -/
theorem expandVars_plain (env : String → Option String) (c : Char)
    (cs rest : List Char) (hc : (c.isAlpha || c == '_') = true)
    (hcs : ∀ ch ∈ cs, varTailChar ch = true)
    (hrest : ∀ d, rest.head? = some d → varTailChar d = false) :
    expandVarsAux env ('$' :: c :: (cs ++ rest)) 0
      = (match env (String.mk (c :: cs)) with
         | some v => v.toList
         | Option.none => '$' :: c :: cs) ++ expandVarsAux env rest 0 := by
  have hlb : (c == lbraceChar) = false := by
    cases hb : c == lbraceChar with
    | false => rfl
    | true =>
      have hcl : c = lbraceChar := eq_of_beq hb
      subst hcl
      exact absurd hc (by decide)
  have htd := takeWhile_append_all varTailChar cs rest hcs hrest
  have hskip : expandVarsAux env (c :: (cs ++ rest)) (cs.length + 1)
      = expandVarsAux env rest 0 := by
    have hrw : c :: (cs ++ rest) = (c :: cs) ++ rest := by simp
    have hlen : cs.length + 1 = (c :: cs).length := by simp
    rw [hrw, hlen, expandVarsAux_skip]
  rw [expandVarsAux]
  simp only [htd.1]
  rw [if_neg (by simp [hlb] : ¬(c == lbraceChar) = true)]
  rw [if_pos hc, hskip]

/-- Characters other than `$` pass through the scanner unchanged. -/
theorem expandVars_other (env : String → Option String) (c : Char)
    (rest : List Char) (hc : c ≠ '$') :
    expandVarsAux env (c :: rest) 0 = c :: expandVarsAux env rest 0 := by
  rw [expandVarsAux]
  exact fun h => hc h

/-! Helper lemmas about the lexer's command-substitution scan. -/

/-- Exit step of the `$(...)` scan at nesting depth one. -/
theorem csLoop_exit (r : List Char) (l co : Nat) :
    csLoop 1 (')' :: r) l co = ([], r, l, co + 1) := rfl

/-- The `$(...)` scan with a balanced payload keeps exactly the payload
and stops at the matching closing parenthesis. -/
theorem csLoop_balanced :
    ∀ (inner : List Char) (d : Nat) (rest : List Char) (l co : Nat),
      balancedAux d inner = true →
      (csLoop (d + 1) (inner ++ ')' :: rest) l co).1 = inner
      ∧ (csLoop (d + 1) (inner ++ ')' :: rest) l co).2.1 = rest := by
  intro inner
  induction inner with
  | nil =>
    intro d rest l co hb
    have hd : d = 0 := by simpa [balancedAux] using hb
    subst hd
    rw [List.nil_append, csLoop_exit]
    exact ⟨rfl, rfl⟩
  | cons c tl ih =>
    intro d rest l co hb
    by_cases hc1 : c = '('
    · subst hc1
      have hb2 : balancedAux (d + 1) tl = true := by
        rw [balancedAux] at hb; exact hb
      have h := ih (d + 1) rest l (co + 1) hb2
      rw [List.cons_append, csLoop]
      exact ⟨congrArg (List.cons '(') h.1, h.2⟩
    · by_cases hc2 : c = ')'
      · subst hc2
        have hd : d ≠ 0 := by
          intro h0
          subst h0
          rw [balancedAux] at hb
          simp at hb
        obtain ⟨e, rfl⟩ : ∃ e, d = e + 1 := ⟨d - 1, by omega⟩
        have hb2 : balancedAux e tl = true := by
          rw [balancedAux] at hb
          simpa using hb
        have h := ih e rest l (co + 1) hb2
        have hred : csLoop (e + 1 + 1) (')' :: (tl ++ ')' :: rest)) l co
            = (')' :: (csLoop (e + 1) (tl ++ ')' :: rest) l (co + 1)).1,
               (csLoop (e + 1) (tl ++ ')' :: rest) l (co + 1)).2.1,
               (csLoop (e + 1) (tl ++ ')' :: rest) l (co + 1)).2.2.1,
               (csLoop (e + 1) (tl ++ ')' :: rest) l (co + 1)).2.2.2) := by
          rw [csLoop]
          rw [if_pos (by omega : e + 1 + 1 - 1 > 0)]
          norm_num
        rw [List.cons_append, hred]
        exact ⟨congrArg (List.cons ')') h.1, h.2⟩
      · have hb2 : balancedAux d tl = true := by
          rw [balancedAux] at hb
          · exact hb
          all_goals intros
          all_goals simp_all
        have h := ih d rest
          (if c == '\n' then (l + 1, 1) else (l, co + 1)).1
          (if c == '\n' then (l + 1, 1) else (l, co + 1)).2 hb2
        have hred : csLoop (d + 1) (c :: (tl ++ ')' :: rest)) l co
            = (c :: (csLoop (d + 1) (tl ++ ')' :: rest)
                  (if c == '\n' then (l + 1, 1) else (l, co + 1)).1
                  (if c == '\n' then (l + 1, 1) else (l, co + 1)).2).1,
               (csLoop (d + 1) (tl ++ ')' :: rest)
                  (if c == '\n' then (l + 1, 1) else (l, co + 1)).1
                  (if c == '\n' then (l + 1, 1) else (l, co + 1)).2).2.1,
               (csLoop (d + 1) (tl ++ ')' :: rest)
                  (if c == '\n' then (l + 1, 1) else (l, co + 1)).1
                  (if c == '\n' then (l + 1, 1) else (l, co + 1)).2).2.2.1,
               (csLoop (d + 1) (tl ++ ')' :: rest)
                  (if c == '\n' then (l + 1, 1) else (l, co + 1)).1
                  (if c == '\n' then (l + 1, 1) else (l, co + 1)).2).2.2.2) := by
          rw [csLoop]
          all_goals intros
          all_goals simp_all
        rw [List.cons_append, hred]
        exact ⟨congrArg (List.cons c) h.1, h.2⟩

/-- For every well-formed `$(INNER)` occurrence whose payload does not
itself start with `(`, `read_command_substitution` returns exactly the
payload and stops at the matching close: its nested parentheses balance
before the substitution is considered closed. -/
theorem read_command_substitution_balanced (inner rest : List Char)
    (l co : Nat) (hb : balancedAux 0 inner = true)
    (hhd : inner.head? ≠ some '(') :
    (read_command_substitution ('$' :: '(' :: (inner ++ ')' :: rest)) l co).1
        = String.mk inner
    ∧ (read_command_substitution ('$' :: '(' :: (inner ++ ')' :: rest)) l co).2.1
        = rest := by
  have h := csLoop_balanced inner 0 rest l (co + 2) hb
  cases inner with
  | nil =>
    rw [List.nil_append]
    exact ⟨congrArg String.mk h.1, h.2⟩
  | cons c tl =>
    have hc : ¬c = '(' := by
      intro hh
      subst hh
      exact hhd rfl
    have hred : read_command_substitution
          ('$' :: '(' :: (c :: tl ++ ')' :: rest)) l co
        = (String.mk (csLoop 1 (c :: tl ++ ')' :: rest) l (co + 2)).1,
           (csLoop 1 (c :: tl ++ ')' :: rest) l (co + 2)).2.1,
           (csLoop 1 (c :: tl ++ ')' :: rest) l (co + 2)).2.2.1,
           (csLoop 1 (c :: tl ++ ')' :: rest) l (co + 2)).2.2.2) := by
      rw [read_command_substitution]
      all_goals intros
      all_goals simp_all
    rw [hred]
    exact ⟨congrArg String.mk h.1, h.2⟩

/-- Auxiliary fact for `ifStatementCoercion`: a string is distinct from
the empty string exactly when its character list is non-empty. -/
theorem string_ne_empty_iff (s : String) : s ≠ "" ↔ s.data ≠ [] := by
  constructor
  · intro h hd
    apply h
    cases s with
    | mk data => cases hd; rfl
  · intro h hs
    subst hs
    exact h rfl

/-! The claims. -/

/-- Claim C1.  The claim states that completion markers never recur
within a session: two calls of `_execute_in_session`, even with identical
command text or hash-colliding texts, receive distinct markers.  The code
derives the marker purely from `hash(command) % 10000`, so the second
submission of the same command in the same session reuses the first
marker, and any two commands whose hashes agree modulo 10000 share a
marker.  This refutes the claim on the code (the specification flags the
hash-based scheme as the defect to replace). -/
theorem c1_marker_reuse :
    ∀ (h : String → Nat) (cmd c1 c2 : String),
      (executeInSession ⟨h, []⟩ cmd).1
          = (executeInSession (executeInSession ⟨h, []⟩ cmd).2 cmd).1
      ∧ (h c1 % 10000 = h c2 % 10000 →
          commandMarker h c1 = commandMarker h c2) := by
  intro h cmd c1 c2
  refine ⟨rfl, fun hcol => ?_⟩
  unfold commandMarker
  rw [hcol]

/-- Witness for C1: with a concrete hash function, submitting
`echo hi` twice yields the same marker, and two distinct commands
collide. -/
theorem c1_marker_reuse_witness :
    (executeInSession ⟨fun _ => 0, []⟩ "echo hi").1
        = (executeInSession (executeInSession ⟨fun _ => 0, []⟩ "echo hi").2
            "echo hi").1
    ∧ commandMarker (fun _ => 0) "echo foo"
        = commandMarker (fun _ => 0) "echo bar" :=
  ⟨(c1_marker_reuse (fun _ => 0) "echo hi" "echo foo" "echo bar").1,
   (c1_marker_reuse (fun _ => 0) "echo hi" "echo foo" "echo bar").2 rfl⟩

/-- Claim C2.  The claim states that `tokenize` is total and never
raises: every input yields a finite token sequence ending in EOF,
including strings ending in whitespace and strings containing a lone
`&`.  The code refutes both named cases: on the input `" "` the
whitespace skipper evaluates Python `None in ' \t'` and raises TypeError,
and on the input `"&"` the lexer appends empty IDENTIFIER tokens forever
without consuming the `&` — `tokenizeLoop` returns no result for ANY
amount of fuel, at any line, column and token prefix. -/
theorem c2_tokenize_raises_and_loops :
    tokenize 3 " " = some (Except.error LexError.typeError)
    ∧ ∀ (fuel l co : Nat) (toks : List Token),
        tokenizeLoop fuel ⟨['&'], l, co, toks⟩ = Option.none := by
  refine ⟨rfl, ?_⟩
  have hstep : ∀ (fuel l co : Nat) (toks : List Token),
      tokenizeLoop (fuel + 1) ⟨['&'], l, co, toks⟩
        = tokenizeLoop fuel
            ⟨['&'], l, co, toks ++ [⟨TokenType.IDENTIFIER, "", l, co⟩]⟩ :=
    fun _ _ _ _ => rfl
  intro fuel
  induction fuel with
  | zero => intro l co toks; rfl
  | succ n ih =>
    intro l co toks
    rw [hstep]
    exact ih l co _

/-- Claim C3, counterexample.  The claim states that the if-statement and
the compound statement derive the same boolean from every evaluation
result.  At the integer 0 the if-statement coercion yields true
(exit status 0 = success) while the compound coercion, Python `bool(0)`,
yields false. -/
theorem c3_coercions_differ :
    ¬ ifStatementCoercion (Value.int 0) = compoundCoercion (Value.int 0) := by
  decide

/-- Claim C3, amended.  The two coercions agree on booleans and on None,
but differ on every integer (the if-statement is truthy iff the value is
0, the compound iff it is nonzero) and on non-empty strings (truthy for
the if-statement, always falsy for the compound, for which `s == 0` is
False in Python). -/
theorem c3_truthiness_amended :
    ∀ (b : Bool) (n : Int) (s : String),
      ifStatementCoercion (Value.bool b) = b
      ∧ compoundCoercion (Value.bool b) = b
      ∧ ifStatementCoercion (Value.int n) = (n == 0)
      ∧ compoundCoercion (Value.int n) = !(n == 0)
      ∧ (ifStatementCoercion (Value.str s) = true ↔ s ≠ "")
      ∧ compoundCoercion (Value.str s) = false
      ∧ ifStatementCoercion Value.none = false
      ∧ compoundCoercion Value.none = false
      ∧ (ifStatementCoercion (Value.int n) = compoundCoercion (Value.int n)
          ↔ False) := by
  intro b n s
  refine ⟨rfl, rfl, rfl, rfl, ?_, rfl, rfl, rfl, ?_⟩
  · rw [string_ne_empty_iff]
    show decide (0 < s.length) = true ↔ s.data ≠ []
    rw [decide_eq_true_iff]
    show 0 < s.data.length ↔ s.data ≠ []
    exact List.length_pos
  · show (n == 0) = !(n == 0) ↔ False
    cases h : n == 0 <;> simp

/-- Claim C4.  An opts statement that parses its arguments successfully
runs its body on the overlay environment and afterwards — however the
body terminated, since the Python restore runs in `finally` and the body
is quantified here as an arbitrary environment transformer — every
variable the opts set is restored to its pre-opts state (prior value, or
deleted when it had none), while the restore touches no other variable
and the overlay itself changes no variable outside the parsed set. -/
theorem c4_opts_scoped_restore {α : Type} (specs args : List String)
    (env : Env) (body : Env → Env × Option α)
    (parsedArgs : List (String × String)) (v : String)
    (hok : parseArgs (parseSpecs specs).1 args [] = Except.ok parsedArgs) :
    evaluate_opts_statement specs args env body
      = OptsResult.completed
          (body (installVars (applyDefaults (parseSpecs specs).2 parsedArgs)
            env)).2
          (restoreVars (applyDefaults (parseSpecs specs).2 parsedArgs)
            (saveOldVars (applyDefaults (parseSpecs specs).2 parsedArgs) env)
            (body (installVars (applyDefaults (parseSpecs specs).2 parsedArgs)
              env)).1)
    ∧ ∀ bodyEnv : Env,
      ((applyDefaults (parseSpecs specs).2 parsedArgs).any
          (fun p => p.1 == v) = true →
        lookupVar (restoreVars (applyDefaults (parseSpecs specs).2 parsedArgs)
          (saveOldVars (applyDefaults (parseSpecs specs).2 parsedArgs) env)
          bodyEnv) v
          = lookupVar env v)
      ∧ ((applyDefaults (parseSpecs specs).2 parsedArgs).any
          (fun p => p.1 == v) = false →
        lookupVar (restoreVars (applyDefaults (parseSpecs specs).2 parsedArgs)
          (saveOldVars (applyDefaults (parseSpecs specs).2 parsedArgs) env)
          bodyEnv) v
          = lookupVar bodyEnv v
        ∧ lookupVar (installVars (applyDefaults (parseSpecs specs).2 parsedArgs)
            env) v
          = lookupVar env v) := by
  constructor
  · unfold evaluate_opts_statement
    simp only [hok]
  · intro bodyEnv
    constructor
    · intro hmem
      rw [restore_lookup, if_pos hmem, saveOld_lookup, hmem]
      cases h : lookupVar env v with
      | none => simp [h]
      | some w => simp [h]
    · intro hmem
      constructor
      · rw [restore_lookup, hmem]; simp
      · exact install_lookup_off v _ env hmem

/-- Witness for C4: option spec `f:name`, arguments `-f x`, an
environment where `name` is already `old`; after a body that overwrites
`name`, the restore returns `name` to `old`. -/
theorem c4_opts_scoped_restore_witness :
    lookupVar
        (restoreVars (applyDefaults (parseSpecs ["f:name"]).2 [("name", "x")])
          (saveOldVars (applyDefaults (parseSpecs ["f:name"]).2 [("name", "x")])
            [("name", "old"), ("keep", "k")])
          (insertVar [("name", "old"), ("keep", "k")] "name" "inner")) "name"
      = some "old" := by
  have h := (c4_opts_scoped_restore (α := Unit) ["f:name"] ["-f", "x"]
    [("name", "old"), ("keep", "k")] (fun e => (e, Option.none))
    [("name", "x")] "name" rfl).2
    (insertVar [("name", "old"), ("keep", "k")] "name" "inner")
  have h1 := h.1 (by decide)
  exact h1.trans (by decide)

/-- Claim C5.  The claim states that string expansion reaches a fixed
point in finitely many steps for every input and every session
behaviour.  The single-pass `_expand_variables` does terminate, but the
`while re.search` loop in `evaluate_variable_assignment` re-scans its own
replacements: assigning `x = "$(c)"` with a session whose stdout for
every command is `$(c)` replaces the match by itself and never
terminates — the fuelled loop returns no result for any amount of
fuel. -/
theorem c5_assignment_expansion_diverges :
    ∀ fuel : Nat,
      evaluate_variable_assignment [] (fun _ => "$(c)") fuel "x" "$(c)"
        = Option.none := by
  have hstep : ∀ n : Nat,
      assignCmdSubLoop (fun _ => "$(c)") (n + 1) "$(c)".toList
        = assignCmdSubLoop (fun _ => "$(c)") n "$(c)".toList :=
    fun _ => rfl
  have hloop : ∀ n : Nat,
      assignCmdSubLoop (fun _ => "$(c)") n "$(c)".toList = Option.none := by
    intro n
    induction n with
    | zero => rfl
    | succ n ih => rw [hstep]; exact ih
  intro fuel
  show (match assignCmdSubLoop (fun _ => "$(c)") fuel "$(c)".toList with
    | Option.none => Option.none
    | some v2 => some (String.mk v2, insertVar [] "x" (String.mk v2)))
      = Option.none
  rw [hloop]

/-- Claim C6, counterexample.  The claim states that an unbound
`${name}` occurrence is preserved exactly as written.  With no variable
bound, expanding `${foo}` yields `$foo`: the braces are dropped. -/
theorem c6_unbound_brace_not_preserved :
    expand_variables_only [] "${foo}" = "$foo"
    ∧ expand_variables_only [] "${foo}" ≠ "${foo}" := by
  exact ⟨rfl, by decide⟩

/-- Claim C6, amended.  The variable pass of expansion behaves as
follows, scanning left to right: non-`$` characters pass through; a
`${name}` occurrence with bound name is replaced by the bound value and
with unbound name by `$name` — the braces are dropped, NOT preserved
exactly as written; a plain `$name` occurrence with bound name is
replaced by the bound value and with unbound name is preserved exactly.
Replacements are spliced without rescanning, and scanning continues
after the occurrence, so every occurrence is processed. -/
theorem c6_expansion_amended :
    (∀ (env : String → Option String) (c : Char) (rest : List Char),
      c ≠ '$' → expandVarsAux env (c :: rest) 0 = c :: expandVarsAux env rest 0)
    ∧ (∀ (env : String → Option String) (name rest : List Char) (v : String),
      name ≠ [] → (∀ ch ∈ name, ch ≠ rbraceChar) →
      env (String.mk name) = some v →
      expandVarsAux env ('$' :: lbraceChar :: (name ++ rbraceChar :: rest)) 0
        = v.toList ++ expandVarsAux env rest 0)
    ∧ (∀ (env : String → Option String) (name rest : List Char),
      name ≠ [] → (∀ ch ∈ name, ch ≠ rbraceChar) →
      env (String.mk name) = Option.none →
      expandVarsAux env ('$' :: lbraceChar :: (name ++ rbraceChar :: rest)) 0
        = '$' :: (name ++ expandVarsAux env rest 0))
    ∧ (∀ (env : String → Option String) (c : Char) (cs rest : List Char)
        (v : String),
      (c.isAlpha || c == '_') = true → (∀ ch ∈ cs, varTailChar ch = true) →
      (∀ d, rest.head? = some d → varTailChar d = false) →
      env (String.mk (c :: cs)) = some v →
      expandVarsAux env ('$' :: c :: (cs ++ rest)) 0
        = v.toList ++ expandVarsAux env rest 0)
    ∧ (∀ (env : String → Option String) (c : Char) (cs rest : List Char),
      (c.isAlpha || c == '_') = true → (∀ ch ∈ cs, varTailChar ch = true) →
      (∀ d, rest.head? = some d → varTailChar d = false) →
      env (String.mk (c :: cs)) = Option.none →
      expandVarsAux env ('$' :: c :: (cs ++ rest)) 0
        = '$' :: c :: (cs ++ expandVarsAux env rest 0)) := by
  refine ⟨expandVars_other, ?_, ?_, ?_, ?_⟩
  · intro env name rest v hne hnb hv
    rw [expandVars_brace env name rest hne hnb, hv]
  · intro env name rest hne hnb hv
    rw [expandVars_brace env name rest hne hnb, hv]
    rfl
  · intro env c cs rest v hc hcs hrest hv
    rw [expandVars_plain env c cs rest hc hcs hrest, hv]
  · intro env c cs rest hc hcs hrest hv
    rw [expandVars_plain env c cs rest hc hcs hrest, hv]
    rfl

/-- Witness for C6: a bound `${x}` occurrence is replaced by its value,
and an unbound `${foo}` occurrence becomes `$foo`. -/
theorem c6_expansion_amended_witness :
    expandVarsAux (lookupVar [("x", "V")])
        ('$' :: lbraceChar :: ("x".toList ++ rbraceChar :: ('!' :: []))) 0
      = "V".toList ++ expandVarsAux (lookupVar [("x", "V")]) ('!' :: []) 0
    ∧ expandVarsAux (lookupVar [])
        ('$' :: lbraceChar :: ("foo".toList ++ rbraceChar :: [])) 0
      = '$' :: ("foo".toList ++ expandVarsAux (lookupVar []) [] 0) :=
  ⟨c6_expansion_amended.2.1 (lookupVar [("x", "V")]) "x".toList ('!' :: []) "V"
      (by decide) (by decide) rfl,
   c6_expansion_amended.2.2.1 (lookupVar []) "foo".toList [] (by decide)
      (by decide) rfl⟩

/-- Claim C7.  The claim states that a well-formed `$(...)` payload
closes only when its nested parentheses balance and that `$((...))`
always produces an arithmetic-expansion token.  The nesting half holds in
the lexer — `tokenize "$(a (b) c)"` yields one COMMAND_SUB token with the
full nested payload (and `read_command_substitution_balanced` proves the
general statement) — but `$((1+2))` makes `tokenize` raise
AttributeError, because token_types.py declares no ARITHMETIC_EXPANSION
member, instead of producing any token; and the evaluator's expansion
regex `\$\(([^)]+)\)` reads the same `$((1+2))` text as a command
substitution, submitting `(1+2` to the session and leaving the spare
`)` behind. -/
theorem c7_arith_token_crash :
    tokenize 2 "$((1+2))" = some (Except.error LexError.attributeError)
    ∧ tokenize 3 "$(a (b) c)"
        = some (Except.ok [⟨TokenType.COMMAND_SUB, "a (b) c", 1, 1⟩,
            ⟨TokenType.EOF, "", 1, 11⟩])
    ∧ ∀ out : String → String,
        cmdSubAux (replaceCmd [] out) "$((1+2))".toList 0
          = (replaceCmd [] out "(1+2").toList ++ [')'] := by
  exact ⟨rfl, rfl, fun out => rfl⟩

/-- Claim C8.  An argument vector containing a `-flag` not listed in the
option specs makes the opts statement print the usage error and evaluate
to the failure result, with the environment returned untouched and the
body never executed (the result is the same for every body and mentions
no body output); nothing is installed before the rejection. -/
theorem c8_unknown_flag_fails (specs args : List String) (env : Env)
    (a : String) (hmem : a ∈ args) (h1 : pyStartsWith a "-" = true)
    (h2 : pyStartsWith a "--" = false)
    (h3 : lookupVar (parseSpecs specs).1 (a.drop 1) = Option.none) :
    ∃ bad, parseArgs (parseSpecs specs).1 args [] = Except.error bad
      ∧ ∀ (body : Env → Env × Option Unit),
          evaluate_opts_statement specs args env body
            = OptsResult.usageError (usageMessage (parseSpecs specs).1 bad)
                env := by
  obtain ⟨bad, hbad⟩ := parseArgs_unknown args.length (parseSpecs specs).1
    args [] (Nat.le_refl _) ⟨a, hmem, h1, h2, h3⟩
  refine ⟨bad, hbad, ?_⟩
  intro body
  unfold evaluate_opts_statement
  simp only [hbad]

/-- Witness for C8: spec `f:v` and arguments `["-x"]` produce exactly the
two usage-error lines and the untouched empty environment. -/
theorem c8_unknown_flag_fails_witness :
    evaluate_opts_statement ["f:v"] ["-x"] ([] : Env)
        (fun e => (e, (Option.none : Option Unit)))
      = OptsResult.usageError
          ["Unknown option: -x", "Available options: -f"] [] := by
  obtain ⟨bad, hp, hall⟩ := c8_unknown_flag_fails ["f:v"] ["-x"] [] "-x"
    (List.mem_singleton.mpr rfl) (by decide) (by decide) (by decide)
  have hcomp : parseArgs (parseSpecs ["f:v"]).1 ["-x"] [] = Except.error "-x" :=
    rfl
  rw [hcomp] at hp
  have hbad : bad = "-x" := (Except.error.injEq _ _).mp hp.symm
  subst hbad
  exact hall (fun e => (e, Option.none))

/-- Claim C9.  An option spec of the form `flag:varname:` whose default
component is empty installs NO default: the spec parses to an option-map
entry with an empty defaults map and, with the flag absent from the
arguments, the body runs on the unchanged environment, leaving `varname`
unset; whereas the same spec with a non-empty default `d` binds
`varname` to `d` in the overlay. -/
theorem c9_empty_default_discarded (s s' f v d : String) (env : Env)
    (body : Env → Env × Option Unit)
    (hs : pySplit ':' s.toList = [f.toList, v.toList, []])
    (hs' : pySplit ':' s'.toList = [f.toList, v.toList, d.toList])
    (hd : d ≠ "") :
    parseSpecs [s] = ([(f, v)], [])
    ∧ parseSpecs [s'] = ([(f, v)], [(v, d)])
    ∧ evaluate_opts_statement [s] [] env body
        = OptsResult.completed (body env).2 (body env).1
    ∧ lookupVar (installVars (applyDefaults (parseSpecs [s']).2 []) env) v
        = some d := by
  have hsp : parseSpecs [s] = ([(f, v)], []) := by
    unfold parseSpecs
    simp only [List.foldl_cons, List.foldl_nil, hs]
    simp [insertVar]
  have hsp' : parseSpecs [s'] = ([(f, v)], [(v, d)]) := by
    unfold parseSpecs
    simp only [List.foldl_cons, List.foldl_nil, hs']
    simp [insertVar, hd]
  refine ⟨hsp, hsp', ?_, ?_⟩
  · unfold evaluate_opts_statement
    simp only [hsp]
    rfl
  · rw [hsp']
    have h1 : applyDefaults [(v, d)] [] = [(v, d)] := rfl
    rw [h1]
    have h2 : installVars [(v, d)] env = insertVar env v d := rfl
    rw [h2, lookupVar_insert, if_pos rfl]

/-- Witness for C9: specs `f:name:` and `f:name:dflt` with no arguments;
the first installs nothing, the second binds `name` to `dflt`. -/
theorem c9_empty_default_discarded_witness :
    parseSpecs ["f:name:"] = ([("f", "name")], [])
    ∧ evaluate_opts_statement ["f:name:"] [] ([] : Env)
        (fun e => (e, (Option.none : Option Unit)))
      = OptsResult.completed (Option.none : Option Unit) []
    ∧ lookupVar (installVars
        (applyDefaults (parseSpecs ["f:name:dflt"]).2 []) []) "name"
      = some "dflt" := by
  have h := c9_empty_default_discarded "f:name:" "f:name:dflt" "f" "name"
    "dflt" [] (fun e => (e, Option.none)) (by decide) (by decide) (by decide)
  exact ⟨h.1, h.2.2.1, h.2.2.2⟩

/-- Claim C10.  A block or atom statement whose command expression has
evaluated to a non-string value (a bool, an int, or the null result of an
absent command expression) returns False and submits nothing to the
session: no export command and no external invocation is logged. -/
theorem c10_nonstring_command_noop :
    ∀ (options : List String) (description : String) (vars : Env)
      (rc : String → Int) (log : List String) (b : Bool) (n : Int),
      evaluate_block_statement options (Value.bool b) vars rc log = (false, log)
      ∧ evaluate_block_statement options (Value.int n) vars rc log = (false, log)
      ∧ evaluate_block_statement options Value.none vars rc log = (false, log)
      ∧ evaluate_atom_statement description (Value.bool b) vars rc log
          = (false, log)
      ∧ evaluate_atom_statement description (Value.int n) vars rc log
          = (false, log)
      ∧ evaluate_atom_statement description Value.none vars rc log
          = (false, log) := by
  intro options description vars rc log b n
  exact ⟨rfl, rfl, rfl, rfl, rfl, rfl⟩

end COMSUI
